import Mathlib

/-!
Verification of the OS.js VNC application (`src/index.js`).

The source is an event-wiring layer: a session store keyed by connection URL,
a VNC window factory, a connection dialog, a tray menu, and three process-level
event handlers (`vnc:create-session`, `vnc:destroy-session`,
`vnc:update-session`).  We embed the JavaScript object operations the code
relies on as association lists in insertion order and translate each function
of the source.
-/

set_option autoImplicit false

/-- JavaScript objects as the code uses them: key/value pairs in insertion
order.  Any object produced by the program has pairwise distinct keys. -/
abbrev JsObj (V : Type) : Type := List (String × V)

/-- `Object.keys(o)`: keys in insertion order. -/
def jsKeys {V : Type} (o : JsObj V) : List String := o.map Prod.fst

/-- Property lookup `o[k]`: `none` plays the role of `undefined`. -/
def jsGet {V : Type} (o : JsObj V) (k : String) : Option V :=
  (List.find? (fun p => decide (p.1 = k)) o).map Prod.snd

/-- Property assignment `o[k] = v`: an existing key keeps its position, a new
key is appended. -/
def jsSet {V : Type} (o : JsObj V) (k : String) (v : V) : JsObj V :=
  if o.any (fun p => decide (p.1 = k)) then
    o.map (fun p => if p.1 = k then (k, v) else p)
  else
    o ++ [(k, v)]

/-- `delete o[k]`. -/
def jsDelete {V : Type} (o : JsObj V) (k : String) : JsObj V :=
  o.filter (fun p => decide (p.1 ≠ k))

/-- `Object.assign(target, source)`: each own property of `source` is assigned
onto `target` in insertion order. -/
def objectAssign {V : Type} (target source : JsObj V) : JsObj V :=
  source.foldl (fun acc p => jsSet acc p.1 p.2) target

/-- Keys are pairwise distinct (true of every actual JavaScript object). -/
def keysNodup {V : Type} (o : JsObj V) : Prop := (jsKeys o).Nodup

-- Basic lemmas about the object model ---------------------------------------

theorem jsGet_nil {V : Type} (k : String) : jsGet ([] : JsObj V) k = none := rfl

theorem jsGet_cons {V : Type} (a : String) (v : V) (o : JsObj V) (k : String) :
    jsGet ((a, v) :: o) k = if a = k then some v else jsGet o k := by
  by_cases h : a = k <;> simp [jsGet, List.find?, h]

theorem jsGet_append {V : Type} (o₁ o₂ : JsObj V) (k : String) :
    jsGet (o₁ ++ o₂) k =
      match jsGet o₁ k with
      | some v => some v
      | none => jsGet o₂ k := by
  induction o₁ with
  | nil => simp [jsGet_nil]
  | cons p o ih =>
    rcases p with ⟨a, v⟩
    by_cases h : a = k <;> simp [jsGet_cons, h, ih]

theorem jsGet_eq_none_of_not_mem {V : Type} {o : JsObj V} {k : String}
    (h : k ∉ jsKeys o) : jsGet o k = none := by
  induction o with
  | nil => rfl
  | cons p o ih =>
    rcases p with ⟨a, v⟩
    simp only [jsKeys, List.map_cons, List.mem_cons] at h
    push_neg at h
    rw [jsGet_cons, if_neg (fun hh => h.1 hh.symm)]
    exact ih h.2

theorem mem_jsKeys_of_jsGet {V : Type} {o : JsObj V} {k : String} {v : V}
    (h : jsGet o k = some v) : k ∈ jsKeys o := by
  by_contra hk
  rw [jsGet_eq_none_of_not_mem hk] at h
  exact Option.noConfusion h

theorem jsAny_eq_true_iff {V : Type} (o : JsObj V) (k : String) :
    (o.any (fun p => decide (p.1 = k)) = true) ↔ k ∈ jsKeys o := by
  simp [jsKeys, List.any_eq_true]

theorem jsGet_map_replace_of_ne {V : Type} (o : JsObj V) (k k' : String) (v : V)
    (h : k' ≠ k) :
    jsGet (o.map (fun p => if p.1 = k then (k, v) else p)) k' = jsGet o k' := by
  induction o with
  | nil => rfl
  | cons p o ih =>
    rcases p with ⟨a, w⟩
    by_cases ha : a = k
    · subst ha
      simp only [List.map_cons, if_pos rfl]
      rw [jsGet_cons, jsGet_cons, if_neg (fun hh => h hh.symm),
        if_neg (fun hh => h hh.symm)]
      exact ih
    · simp only [List.map_cons, if_neg ha]
      rw [jsGet_cons, jsGet_cons]
      by_cases hk : a = k'
      · simp [hk]
      · simp only [hk, if_false]
        exact ih

theorem jsGet_map_replace_self {V : Type} (o : JsObj V) (k : String) (v : V)
    (h : k ∈ jsKeys o) :
    jsGet (o.map (fun p => if p.1 = k then (k, v) else p)) k = some v := by
  induction o with
  | nil => simp [jsKeys] at h
  | cons p o ih =>
    rcases p with ⟨a, w⟩
    by_cases ha : a = k
    · subst ha
      simp [jsGet_cons]
    · simp only [jsKeys, List.map_cons, List.mem_cons] at h
      rcases h with h | h
      · exact absurd h.symm ha
      · simp only [List.map_cons, if_neg ha]
        rw [jsGet_cons, if_neg ha]
        exact ih h

/-- The characteristic equation of assignment. -/
theorem jsGet_jsSet {V : Type} (o : JsObj V) (k : String) (v : V) (k' : String) :
    jsGet (jsSet o k v) k' = if k = k' then some v else jsGet o k' := by
  unfold jsSet
  by_cases hc : o.any (fun p => decide (p.1 = k)) = true
  · rw [if_pos hc]
    by_cases hk : k = k'
    · subst hk
      rw [if_pos rfl]
      exact jsGet_map_replace_self o k v ((jsAny_eq_true_iff o k).mp hc)
    · rw [if_neg hk]
      exact jsGet_map_replace_of_ne o k k' v (fun hh => hk hh.symm)
  · rw [if_neg hc]
    have hnot : k ∉ jsKeys o := fun hm => hc ((jsAny_eq_true_iff o k).mpr hm)
    rw [jsGet_append]
    by_cases hk : k = k'
    · subst hk
      rw [jsGet_eq_none_of_not_mem hnot]
      simp [jsGet_cons]
    · rw [if_neg hk]
      rw [jsGet_cons]
      simp only [hk, if_false, jsGet_nil]
      cases jsGet o k' <;> rfl

theorem jsGet_jsSet_self {V : Type} (o : JsObj V) (k : String) (v : V) :
    jsGet (jsSet o k v) k = some v := by
  rw [jsGet_jsSet, if_pos rfl]

theorem jsGet_jsSet_ne {V : Type} (o : JsObj V) (k : String) (v : V)
    {k' : String} (h : k ≠ k') : jsGet (jsSet o k v) k' = jsGet o k' := by
  rw [jsGet_jsSet, if_neg h]

theorem jsKeys_jsSet_of_mem {V : Type} {o : JsObj V} {k : String} (v : V)
    (h : k ∈ jsKeys o) : jsKeys (jsSet o k v) = jsKeys o := by
  unfold jsSet
  rw [if_pos ((jsAny_eq_true_iff o k).mpr h)]
  simp only [jsKeys, List.map_map]
  apply List.map_congr_left
  intro p _
  by_cases hp : p.1 = k <;> simp [hp]

theorem jsKeys_jsSet_of_not_mem {V : Type} {o : JsObj V} {k : String} (v : V)
    (h : k ∉ jsKeys o) : jsKeys (jsSet o k v) = jsKeys o ++ [k] := by
  unfold jsSet
  rw [if_neg (fun hc => h ((jsAny_eq_true_iff o k).mp hc))]
  simp [jsKeys]

theorem keysNodup_jsSet {V : Type} {o : JsObj V} (k : String) (v : V)
    (h : keysNodup o) : keysNodup (jsSet o k v) := by
  unfold keysNodup at h ⊢
  by_cases hm : k ∈ jsKeys o
  · rw [jsKeys_jsSet_of_mem v hm]
    exact h
  · rw [jsKeys_jsSet_of_not_mem v hm]
    simp [List.nodup_append, h, hm]

theorem jsKeys_jsDelete_sublist {V : Type} (o : JsObj V) (k : String) :
    (jsKeys (jsDelete o k)).Sublist (jsKeys o) :=
  List.Sublist.map Prod.fst (List.filter_sublist o)

theorem keysNodup_jsDelete {V : Type} {o : JsObj V} (k : String)
    (h : keysNodup o) : keysNodup (jsDelete o k) :=
  List.Nodup.sublist (jsKeys_jsDelete_sublist o k) h

theorem not_mem_jsKeys_jsDelete {V : Type} (o : JsObj V) (k : String) :
    k ∉ jsKeys (jsDelete o k) := by
  simp [jsKeys, jsDelete, List.mem_filter]

theorem jsGet_jsDelete_self {V : Type} (o : JsObj V) (k : String) :
    jsGet (jsDelete o k) k = none :=
  jsGet_eq_none_of_not_mem (not_mem_jsKeys_jsDelete o k)

theorem jsGet_jsDelete_ne {V : Type} (o : JsObj V) (k : String) {k' : String}
    (h : k' ≠ k) : jsGet (jsDelete o k) k' = jsGet o k' := by
  induction o with
  | nil => rfl
  | cons p o ih =>
    rcases p with ⟨a, v⟩
    by_cases ha : a = k
    · have hd : jsDelete ((a, v) :: o) k = jsDelete o k := by
        simp [jsDelete, List.filter_cons, ha]
      have hak : a ≠ k' := fun hh => h (hh.symm.trans ha)
      rw [hd, ih, jsGet_cons, if_neg hak]
    · have hd : jsDelete ((a, v) :: o) k = (a, v) :: jsDelete o k := by
        simp [jsDelete, List.filter_cons, ha]
      rw [hd, jsGet_cons, jsGet_cons, ih]

theorem keysNodup_cons {V : Type} {p : String × V} {o : JsObj V} :
    keysNodup (p :: o) ↔ p.1 ∉ jsKeys o ∧ keysNodup o := by
  simp [keysNodup, jsKeys]

theorem keysNodup_nil {V : Type} : keysNodup ([] : JsObj V) := by
  simp [keysNodup, jsKeys]

theorem jsSet_of_not_mem {V : Type} {o : JsObj V} {k : String} (v : V)
    (h : k ∉ jsKeys o) : jsSet o k v = o ++ [(k, v)] := by
  unfold jsSet
  rw [if_neg (fun hc => h ((jsAny_eq_true_iff o k).mp hc))]

theorem objectAssign_cons {V : Type} (t : JsObj V) (a : String) (v : V)
    (s : JsObj V) : objectAssign t ((a, v) :: s) = objectAssign (jsSet t a v) s :=
  rfl

theorem objectAssign_of_disjoint {V : Type} {t s : JsObj V}
    (hd : ∀ k ∈ jsKeys s, k ∉ jsKeys t) (hs : keysNodup s) :
    objectAssign t s = t ++ s := by
  induction s generalizing t with
  | nil => simp [objectAssign]
  | cons p rest ih =>
    rcases p with ⟨k, v⟩
    obtain ⟨hk, hrest⟩ := keysNodup_cons.mp hs
    have hk2 : k ∉ jsKeys rest := hk
    rw [objectAssign_cons]
    have hkt : (k : String) ∉ jsKeys t := hd k (by simp [jsKeys])
    rw [jsSet_of_not_mem v hkt]
    have hdisj : ∀ a ∈ jsKeys rest, a ∉ jsKeys (t ++ [(k, v)]) := by
      intro a ha
      have ham : a ∈ jsKeys ((k, v) :: rest) := by
        simp only [jsKeys, List.map_cons, List.mem_cons]
        exact Or.inr ha
      simp only [jsKeys, List.map_append, List.map_cons, List.map_nil,
        List.mem_append, List.mem_singleton]
      push_neg
      refine ⟨hd a ham, ?_⟩
      intro hak
      exact hk2 (hak ▸ ha)
    rw [ih hdisj hrest]
    simp

theorem jsGet_objectAssign_not_mem {V : Type} {t s : JsObj V} {k : String}
    (h : k ∉ jsKeys s) : jsGet (objectAssign t s) k = jsGet t k := by
  induction s generalizing t with
  | nil => rfl
  | cons p rest ih =>
    rcases p with ⟨a, v⟩
    simp only [jsKeys, List.map_cons, List.mem_cons] at h
    push_neg at h
    rw [objectAssign_cons, ih h.2, jsGet_jsSet_ne _ _ _ (fun hh => h.1 hh.symm)]

theorem jsGet_objectAssign {V : Type} {s : JsObj V} (hs : keysNodup s)
    (t : JsObj V) (k : String) :
    jsGet (objectAssign t s) k =
      match jsGet s k with
      | some v => some v
      | none => jsGet t k := by
  induction s generalizing t with
  | nil => rfl
  | cons p rest ih =>
    rcases p with ⟨a, v⟩
    obtain ⟨ha, hrest⟩ := keysNodup_cons.mp hs
    have ha2 : a ∉ jsKeys rest := ha
    rw [objectAssign_cons, ih hrest]
    by_cases hk : a = k
    · subst hk
      rw [jsGet_eq_none_of_not_mem ha2, jsGet_cons, if_pos rfl]
      simp [jsGet_jsSet_self]
    · rw [jsGet_jsSet_ne _ _ _ hk, jsGet_cons, if_neg hk]

theorem jsGet_reverse {V : Type} {o : JsObj V} (h : keysNodup o) (u : String) :
    jsGet o.reverse u = jsGet o u := by
  induction o with
  | nil => rfl
  | cons p rest ih =>
    rcases p with ⟨a, v⟩
    obtain ⟨ha, hrest⟩ := keysNodup_cons.mp h
    rw [List.reverse_cons, jsGet_append, ih hrest, jsGet_cons]
    by_cases hu : a = u
    · subst hu
      rw [jsGet_eq_none_of_not_mem ha]
      simp [jsGet_cons]
    · rw [if_neg hu]
      rw [jsGet_cons a v rest u, if_neg hu]
      cases jsGet rest u <;> rfl

theorem jsGet_map_val {A B : Type} (g : A → B) (s : JsObj A) (u : String) :
    jsGet (s.map (fun p => (p.1, g p.2))) u = (jsGet s u).map g := by
  induction s with
  | nil => rfl
  | cons p rest ih =>
    rcases p with ⟨a, v⟩
    by_cases h : a = u <;> simp [jsGet_cons, h, ih]

theorem jsKeys_map_val {A B : Type} (g : A → B) (s : JsObj A) :
    jsKeys (s.map (fun p => (p.1, g p.2))) = jsKeys s := by
  simp [jsKeys, List.map_map]

theorem jsGet_eq_none_iff {V : Type} (o : JsObj V) (k : String) :
    jsGet o k = none ↔ k ∉ jsKeys o := by
  constructor
  · intro h hm
    induction o with
    | nil => simp [jsKeys] at hm
    | cons p rest ih =>
      rcases p with ⟨a, v⟩
      rw [jsGet_cons] at h
      simp only [jsKeys, List.map_cons, List.mem_cons] at hm
      rcases hm with hm | hm
      · rw [if_pos hm.symm] at h
        exact Option.noConfusion h
      · by_cases ha : a = k
        · rw [if_pos ha] at h
          exact Option.noConfusion h
        · rw [if_neg ha] at h
          exact ih h hm
  · exact jsGet_eq_none_of_not_mem

theorem jsGet_objectAssign_none {V : Type} {t s : JsObj V} {u : String}
    (ht : jsGet t u = none) (hs : jsGet s u = none) :
    jsGet (objectAssign t s) u = none := by
  induction s generalizing t with
  | nil => exact ht
  | cons p rest ih =>
    rcases p with ⟨a, v⟩
    rw [jsGet_cons] at hs
    by_cases hau : a = u
    · rw [if_pos hau] at hs
      exact Option.noConfusion hs
    · rw [if_neg hau] at hs
      rw [objectAssign_cons]
      refine ih ?_ hs
      rw [jsGet_jsSet_ne t a v hau]
      exact ht

-- The program model ----------------------------------------------------------

/-- The JavaScript values the program stores inside its option and capability
objects: primitives, and the `{username, password}` credentials object built by
the connection dialog (src/index.js lines 149-152). -/
inductive JsValue : Type where
  | bool (b : Bool)
  | str (s : String)
  | num (n : Int)
  | credentials (username password : String)
  deriving DecidableEq, Repr

/-- JavaScript truthiness of a stored value (objects are always truthy). -/
def truthy : JsValue → Bool
  | .bool b => b
  | .str s => !(s == "")
  | .num n => !(n == 0)
  | .credentials _ _ => true

/-- Truthiness of the property access `o.k`: a missing property reads as
`undefined`, which is falsy. -/
def jsTruthyAt (o : JsObj JsValue) (k : String) : Bool :=
  match jsGet o k with
  | none => false
  | some v => truthy v

/-- One record of the session store (src/index.js line 225): the session's
window, its connect options and its capabilities.  Windows are identified by
the id the host assigned when it created them. -/
structure Session where
  win : Nat
  options : JsObj JsValue
  capabilities : JsObj JsValue
  deriving DecidableEq, Repr

/-- The mutable application state the claims are about: the `sessions` store
(line 163) and the persisted `proc.args.sessions` (`none` models launch args
without a `sessions` property). -/
structure AppState where
  sessions : JsObj Session
  argsSessions : Option (JsObj (JsObj JsValue))
  deriving DecidableEq, Repr

/-- Lines 171-172: `proc.args.sessions = Object.keys(sessions).reduce(
(result, url) => Object.assign({[url]: sessions[url].options}, result), {})`.
`Object.keys` enumerates the entries of `sessions` in insertion order and
`sessions[url]` is the value stored under `url`, so the reduce runs over the
entry list of the store. -/
def updateApplicationSession (sessions : JsObj Session) : JsObj (JsObj JsValue) :=
  sessions.foldl (fun result p => objectAssign [(p.1, p.2.options)] result) []

/-- Lines 224-227: the `vnc:create-session` handler stores
`{win, options, capabilities: {}}` under the url and refreshes
`proc.args.sessions`. -/
def handleCreateSession (st : AppState) (url : String) (win : Nat)
    (options : JsObj JsValue) : AppState :=
  let sessions := jsSet st.sessions url ⟨win, options, []⟩
  { sessions := sessions, argsSessions := some (updateApplicationSession sessions) }

/-- Lines 229-232: the `vnc:destroy-session` handler deletes the url's entry
and refreshes `proc.args.sessions`. -/
def handleDestroySession (st : AppState) (url : String) : AppState :=
  let sessions := jsDelete st.sessions url
  { sessions := sessions, argsSessions := some (updateApplicationSession sessions) }

/-- Lines 234-236: the `vnc:update-session` handler runs
`sessions[url].capabilities = capabilities` with no membership check; on an
untracked url the lookup yields `undefined` and the assignment is an
undefined access, modelled as `none`. -/
def handleUpdateSession (st : AppState) (url : String)
    (capabilities : JsObj JsValue) : Option AppState :=
  match jsGet st.sessions url with
  | none => none
  | some s =>
      some { st with
        sessions := jsSet st.sessions url { s with capabilities := capabilities } }

/-- The process-level events the application emits (lines 84, 106, 107). -/
inductive AppEvent : Type where
  | createSession (url : String) (win : Nat) (options : JsObj JsValue)
  | destroySession (url : String) (win : Nat)
  | updateSession (url : String) (win : Nat) (capabilities : JsObj JsValue)
  deriving DecidableEq, Repr

/-- Dispatch of one emitted event to its handler (lines 224-236). -/
def step (st : AppState) : AppEvent → Option AppState
  | .createSession url win options => some (handleCreateSession st url win options)
  | .destroySession url _ => some (handleDestroySession st url)
  | .updateSession url _ capabilities => handleUpdateSession st url capabilities

/-- A run of the event loop; `none` when some event crashed. -/
def run (st : AppState) : List AppEvent → Option AppState
  | [] => some st
  | e :: rest =>
    match step st e with
    | none => none
    | some st2 => run st2 rest

/-- Line 163 plus the application args: the session store starts empty and
`proc.args.sessions` starts as whatever the launch args carried. -/
def initState (argsSessions : Option (JsObj (JsObj JsValue))) : AppState :=
  ⟨[], argsSessions⟩

/-- The session store has pairwise distinct urls. -/
def sessionsNodup (st : AppState) : Prop := keysNodup st.sessions

-- Properties of the persistence function -------------------------------------

theorem updateApplicationSession_foldl {s : JsObj Session}
    {r : JsObj (JsObj JsValue)} (hs : keysNodup s) (hr : keysNodup r)
    (hd : ∀ k ∈ jsKeys s, k ∉ jsKeys r) :
    s.foldl (fun result p => objectAssign [(p.1, p.2.options)] result) r
      = (s.map (fun p => (p.1, p.2.options))).reverse ++ r := by
  induction s generalizing r with
  | nil => simp
  | cons p rest ih =>
    rcases p with ⟨k, sess⟩
    obtain ⟨hk, hrest⟩ := keysNodup_cons.mp hs
    have hk2 : k ∉ jsKeys rest := hk
    have hkr : k ∉ jsKeys r := hd k (by simp [jsKeys])
    simp only [List.foldl_cons]
    have hassign : objectAssign [(k, sess.options)] r = (k, sess.options) :: r := by
      have hdj : ∀ a ∈ jsKeys r, a ∉ jsKeys ([(k, sess.options)] : JsObj (JsObj JsValue)) := by
        intro a ha
        simp only [jsKeys, List.map_cons, List.map_nil, List.mem_singleton]
        intro hak
        exact hkr (hak ▸ ha)
      rw [objectAssign_of_disjoint hdj hr]
      rfl
    have hr2 : keysNodup ((k, sess.options) :: r) := keysNodup_cons.mpr ⟨hkr, hr⟩
    have hd2 : ∀ a ∈ jsKeys rest, a ∉ jsKeys ((k, sess.options) :: r) := by
      intro a ha
      simp only [jsKeys, List.map_cons, List.mem_cons]
      push_neg
      constructor
      · intro hak
        exact hk2 (hak ▸ ha)
      · have ham : a ∈ jsKeys ((k, sess) :: rest) := by
          simp only [jsKeys, List.map_cons, List.mem_cons]
          exact Or.inr ha
        exact hd a ham
    rw [hassign, ih hrest hr2 hd2]
    simp

/-- Under distinct urls, the persisted object is the entry list of the store
mapped to its options, in reverse insertion order. -/
theorem updateApplicationSession_eq {s : JsObj Session} (h : keysNodup s) :
    updateApplicationSession s = (s.map (fun p => (p.1, p.2.options))).reverse := by
  have hfold := updateApplicationSession_foldl h keysNodup_nil
    (fun k _ => by simp [jsKeys])
  simpa [updateApplicationSession] using hfold

/-- What `updateApplicationSession` persists is exactly the url ↦ options map. -/
theorem jsGet_updateApplicationSession {s : JsObj Session} (h : keysNodup s)
    (u : String) :
    jsGet (updateApplicationSession s) u = (jsGet s u).map Session.options := by
  rw [updateApplicationSession_eq h]
  have hn : keysNodup (s.map (fun p => (p.1, p.2.options))) := by
    unfold keysNodup
    rw [jsKeys_map_val]
    exact h
  rw [jsGet_reverse hn, jsGet_map_val]

theorem jsGet_foldl_none {s : JsObj Session} {r : JsObj (JsObj JsValue)}
    {u : String} (hr : jsGet r u = none) (h : ∀ p ∈ s, p.1 ≠ u) :
    jsGet (s.foldl (fun result p => objectAssign [(p.1, p.2.options)] result) r) u
      = none := by
  induction s generalizing r with
  | nil => exact hr
  | cons p rest ih =>
    rcases p with ⟨k, sess⟩
    have hku : k ≠ u := h (k, sess) (List.mem_cons_self _ _)
    simp only [List.foldl_cons]
    refine ih ?_ (fun q hq => h q (List.mem_cons_of_mem _ hq))
    refine jsGet_objectAssign_none ?_ hr
    rw [jsGet_cons, if_neg hku]
    rfl

/-- A url absent from the store is absent from what gets persisted. -/
theorem jsGet_updateApplicationSession_not_mem {s : JsObj Session} {u : String}
    (h : u ∉ jsKeys s) : jsGet (updateApplicationSession s) u = none := by
  unfold updateApplicationSession
  refine jsGet_foldl_none rfl ?_
  intro p hp hpu
  exact h (hpu ▸ (List.mem_map_of_mem Prod.fst hp))

-- The session-store invariant ------------------------------------------------

theorem sessionsNodup_step {st st2 : AppState} {e : AppEvent}
    (h : step st e = some st2) (hn : sessionsNodup st) : sessionsNodup st2 := by
  cases e with
  | createSession url win options =>
    simp only [step] at h
    injection h with h
    subst h
    exact keysNodup_jsSet url _ hn
  | destroySession url win =>
    simp only [step] at h
    injection h with h
    subst h
    exact keysNodup_jsDelete url hn
  | updateSession url win capabilities =>
    simp only [step, handleUpdateSession] at h
    cases hg : jsGet st.sessions url with
    | none => rw [hg] at h; exact Option.noConfusion h
    | some s =>
      rw [hg] at h
      injection h with h
      subst h
      exact keysNodup_jsSet url _ hn

theorem sessionsNodup_run {evs : List AppEvent} {st st2 : AppState}
    (h : run st evs = some st2) (hn : sessionsNodup st) : sessionsNodup st2 := by
  induction evs generalizing st with
  | nil =>
    simp only [run] at h
    injection h with h
    subst h
    exact hn
  | cons e rest ih =>
    simp only [run] at h
    cases hs : step st e with
    | none => rw [hs] at h; exact Option.noConfusion h
    | some stm => rw [hs] at h; exact ih h (sessionsNodup_step hs hn)

theorem sessionsNodup_initState (a : Option (JsObj (JsObj JsValue))) :
    sessionsNodup (initState a) :=
  keysNodup_nil

-- The VNC window factory and its event wiring ---------------------------------

/-- The calls into the RFB client that the window wiring can make
(src/index.js lines 61, 91-103). -/
inductive RfbCall : Type where
  | sendKey (keysym : Nat) (code : String) (down : Bool)
  | focus
  | blur
  | windowResize
  | sendCtrlAltDel
  | machineShutdown
  | clipboardPasteFrom (text : String)
  | machineReboot
  | machineReset
  | disconnect
  deriving DecidableEq, Repr

/-- Line 61: `sendKey = (ev, down) => rfb.sendKey(0, ev.code, down)`; the
keyboard event is represented by its `code` property. -/
def sendKey (code : String) (down : Bool) : RfbCall :=
  .sendKey 0 code down

/-- The window events the factory subscribes to with `win.on` (lines 91-103). -/
inductive WinEvent : Type where
  | focus
  | blur
  | keydown (code : String)
  | keyup (code : String)
  | resize
  | cad
  | shutdown
  | paste (text : String)
  | reboot
  | reset
  | disconnectReq
  deriving DecidableEq, Repr

/-- Lines 91-103: the handler installed for each window event, given as the
RFB call it performs. -/
def vncWindowOn : WinEvent → RfbCall
  | .focus => .focus
  | .blur => .blur
  | .keydown ev => sendKey ev true
  | .keyup ev => sendKey ev false
  | .resize => .windowResize
  | .cad => .sendCtrlAltDel
  | .shutdown => .machineShutdown
  | .paste text => .clipboardPasteFrom text
  | .reboot => .machineReboot
  | .reset => .machineReset
  | .disconnectReq => .disconnect

/-- A desktop window as `proc.createWindow` returns it (lines 56-59); the
host hands out a fresh id for every call. -/
structure WindowSpec where
  id : Nat
  icon : String
  title : String
  width : Nat
  height : Nat
  deriving DecidableEq, Repr

/-- One construction `new RFB($content, url, options)` (lines 63-65),
attached to the content element of the window identified by `target`. -/
structure RfbClient where
  target : Nat
  url : String
  options : JsObj JsValue
  deriving DecidableEq, Repr

/-- Lines 63-65: the options handed to the RFB constructor are
`Object.assign({shared: true}, options)`. -/
def rfbOptions (options : JsObj JsValue) : JsObj JsValue :=
  objectAssign [("shared", JsValue.bool true)] options

/-- The observable result of one invocation of the factory returned by
`vncWindow` (lines 56-110): the created window, the RFB clients constructed
in its render callback, and the host's id supply after the call. -/
structure VncCreation where
  window : WindowSpec
  rfbClients : List RfbClient
  nextId : Nat
  deriving DecidableEq, Repr

/-- Lines 56-65: each invocation asks the host for a new 800x600 window
titled `mainTitle - Connecting to url` and its render callback constructs one
RFB client against the window's content element.  `nextId` models the host's
supply of fresh window ids. -/
def vncWindowInvoke (mainTitle : String) (nextId : Nat) (url : String)
    (options : JsObj JsValue) : VncCreation :=
  let win : WindowSpec :=
    { id := nextId
      icon := "logo.png"
      title := mainTitle ++ " - Connecting to " ++ url
      width := 800
      height := 600 }
  { window := win
    rfbClients := [{ target := win.id, url := url, options := rfbOptions options }]
    nextId := nextId + 1 }

/-- Lines 50-54: the notification record `createNotification` builds. -/
structure NotificationSpec where
  icon : String
  title : String
  message : String
  deriving DecidableEq, Repr

def createNotification (mainTitle message : String) : NotificationSpec :=
  { icon := "logo.png", title := mainTitle, message := message }

/-- Lines 73-76 together with lines 106 and 229-232: the RFB `disconnect`
listener creates a `Disconnected from url` notification and destroys the
window; destroying the window fires its `destroy` event, which emits
`vnc:destroy-session`, whose handler removes the url and re-persists. -/
def onRfbDisconnect (mainTitle url : String) (st : AppState) :
    NotificationSpec × AppState :=
  (createNotification mainTitle ("Disconnected from " ++ url),
   handleDestroySession st url)

-- The tray menu ---------------------------------------------------------------

/-- An entry of the per-session submenu: label, `disabled` flag (a `disabled`
key absent in the source reads as `undefined`, which is falsy) and the event
its `onclick` emits on the session's window. -/
structure SessionMenuItem where
  label : String
  disabled : Bool
  emitTarget : Nat
  emitEvent : String
  deriving DecidableEq, Repr

/-- The submenu built for one session (lines 195-201). -/
structure SessionSubmenu where
  label : String
  items : List SessionMenuItem
  deriving DecidableEq, Repr

/-- Lines 174-202: `getSessionMenu`.  `Object.keys(sessions)` enumerates the
entries of the store in insertion order and `sessions[url]` destructures to
the stored window and capabilities. -/
def getSessionMenu (sessions : JsObj Session) : List SessionSubmenu :=
  sessions.map (fun p =>
    let url := p.1
    let win := p.2.win
    let capabilities := p.2.capabilities
    let items : List SessionMenuItem :=
      [{ label := "Send Ctrl+Alt+Del"
         disabled := !(jsTruthyAt capabilities "power")
         emitTarget := win
         emitEvent := "vnc:cad" },
       { label := "Send shutdown signal"
         disabled := !(jsTruthyAt capabilities "power")
         emitTarget := win
         emitEvent := "vnc:shutdown" },
       { label := "Send reboot signal"
         disabled := !(jsTruthyAt capabilities "power")
         emitTarget := win
         emitEvent := "vnc:reboot" },
       { label := "Send reset signal"
         disabled := !(jsTruthyAt capabilities "power")
         emitTarget := win
         emitEvent := "vnc:reset" }]
    { label := url
      items := { label := "Disconnect"
                 disabled := false
                 emitTarget := win
                 emitEvent := "vnc:disconnect" } :: items })

/-- What a top-level tray menu entry does when clicked. -/
inductive TrayAction : Type where
  | openConnectionDialog
  | quitProc
  deriving DecidableEq, Repr

/-- A top-level entry of the tray context menu (lines 208-218). -/
inductive TrayEntry : Type where
  | action (label : String) (onclick : TrayAction)
  | submenus (label : String) (disabled : Bool) (items : List SessionSubmenu)
  deriving DecidableEq, Repr

/-- Lines 206-219: the context menu built when the tray icon is clicked; the
`Sessions` entry is disabled when `Object.keys(sessions).length <= 0`. -/
def trayMenu (sessions : JsObj Session) : List TrayEntry :=
  [.action "Create VNC connection" .openConnectionDialog,
   .submenus "Sessions" (decide ((jsKeys sessions).length ≤ 0))
     (getSessionMenu sessions),
   .action "Quit" .quitProc]

-- The connection dialog -------------------------------------------------------

/-- The hyperapp state of the connection dialog. -/
structure DialogState where
  url : String
  username : String
  password : String
  deriving DecidableEq, Repr

/-- Lines 138-142: the initial dialog state. -/
def dialogInit : DialogState :=
  { url := "ws://10.0.0.74:6080", username := "", password := "abc123" }

/-- The observable effects of the dialog's toolbar actions. -/
inductive DialogEffect : Type where
  | closeWindow
  | connectCallback (url : String) (options : JsObj JsValue)
  deriving DecidableEq, Repr

/-- Lines 145-154: `connect` first runs `actions.close()` (closing the dialog
window) and then invokes the factory callback (lines 167-169) with the
current url field and `{credentials: {username, password}}` from the current
field values. -/
def dialogConnect (state : DialogState) : List DialogEffect :=
  [.closeWindow,
   .connectCallback state.url
     [("credentials", JsValue.credentials state.username state.password)]]

/-- Line 144: `close` only closes the dialog window. -/
def dialogCloseAction : List DialogEffect :=
  [.closeWindow]

-- Registration ----------------------------------------------------------------

/-- What the tail of `register` can do at startup (lines 238-243). -/
inductive RegisterAction : Type where
  | createVnc (url : String) (options : JsObj JsValue)
  | openConnectionDialog
  deriving DecidableEq, Repr

/-- Lines 238-243: a present `args.sessions` is replayed,
`Object.keys(args.sessions).forEach(url => createVncWindow(url,
args.sessions[url]))`; otherwise a connection dialog is opened.  The keys
enumeration walks the entry list of the saved object. -/
def registerStartup (argsSessions : Option (JsObj (JsObj JsValue))) :
    List RegisterAction :=
  match argsSessions with
  | some saved => saved.map (fun p => .createVnc p.1 p.2)
  | none => [.openConnectionDialog]

-- Claims ----------------------------------------------------------------------

/-- C2: for every VNC session window, host window events are forwarded into
the remote session: a `keydown` event with code c calls
`rfb.sendKey(0, c, true)`, a `keyup` event with code c calls
`rfb.sendKey(0, c, false)`, `focus` calls `rfb.focus()`, `blur` calls
`rfb.blur()`, and `resize` calls the RFB client's window-resize handler. -/
theorem claim_C2_event_forwarding :
    (∀ c, vncWindowOn (.keydown c) = .sendKey 0 c true)
    ∧ (∀ c, vncWindowOn (.keyup c) = .sendKey 0 c false)
    ∧ vncWindowOn .focus = .focus
    ∧ vncWindowOn .blur = .blur
    ∧ vncWindowOn .resize = .windowResize :=
  ⟨fun _ => rfl, fun _ => rfl, rfl, rfl, rfl⟩

/-- C4: when the RFB client of the session for url u fires `disconnect`, a
notification `Disconnected from u` is created and the session's window is
destroyed; the destruction emits `vnc:destroy-session`, after which u is
neither a key of the session store nor of the persisted
`proc.args.sessions`. -/
theorem claim_C4_disconnect_cleanup (mainTitle url : String) (st : AppState) :
    (onRfbDisconnect mainTitle url st).1.message = "Disconnected from " ++ url
    ∧ jsGet (onRfbDisconnect mainTitle url st).2.sessions url = none
    ∧ ∃ m, (onRfbDisconnect mainTitle url st).2.argsSessions = some m
        ∧ jsGet m url = none := by
  refine ⟨rfl, ?_, ?_⟩
  · exact jsGet_jsDelete_self st.sessions url
  · exact ⟨updateApplicationSession (jsDelete st.sessions url), rfl,
      jsGet_updateApplicationSession_not_mem (not_mem_jsKeys_jsDelete _ _)⟩

/-- C6: every invocation of the VNC window factory for url u creates a new
800x600 desktop window initially titled
`<application title> - Connecting to u`, and constructs exactly one RFB
client attached to that window's content element for url u; distinct
invocations yield distinct windows. -/
theorem claim_C6_window_factory (mainTitle : String) (nextId : Nat)
    (url : String) (options : JsObj JsValue) :
    (vncWindowInvoke mainTitle nextId url options).window.width = 800
    ∧ (vncWindowInvoke mainTitle nextId url options).window.height = 600
    ∧ (vncWindowInvoke mainTitle nextId url options).window.title
        = mainTitle ++ " - Connecting to " ++ url
    ∧ (vncWindowInvoke mainTitle nextId url options).rfbClients.length = 1
    ∧ (∀ c ∈ (vncWindowInvoke mainTitle nextId url options).rfbClients,
        c.url = url
        ∧ c.target = (vncWindowInvoke mainTitle nextId url options).window.id)
    ∧ (∀ t2 u2 o2,
        (vncWindowInvoke t2 (vncWindowInvoke mainTitle nextId url options).nextId
            u2 o2).window.id
          ≠ (vncWindowInvoke mainTitle nextId url options).window.id) := by
  refine ⟨rfl, rfl, rfl, rfl, ?_, ?_⟩
  · intro c hc
    simp only [vncWindowInvoke, List.mem_singleton] at hc
    subst hc
    exact ⟨rfl, rfl⟩
  · intro t2 u2 o2
    simp [vncWindowInvoke]

theorem claim_C6_window_factory_witness :
    ({ target := 0, url := "ws://h", options := rfbOptions [] } : RfbClient).url
        = "ws://h"
    ∧ ({ target := 0, url := "ws://h", options := rfbOptions [] } : RfbClient).target
        = (vncWindowInvoke "VNC" 0 "ws://h" []).window.id :=
  (claim_C6_window_factory "VNC" 0 "ws://h" []).2.2.2.2.1 _
    (by simp [vncWindowInvoke])

/-- C7: in the connection dialog, Connect first closes the dialog window and
then invokes VNC window creation with the dialog's current url and an options
object `{credentials: {username, password}}` from the current fields; Close
closes the dialog without creating any connection. -/
theorem claim_C7_dialog_actions (state : DialogState) :
    dialogConnect state
      = [DialogEffect.closeWindow,
         DialogEffect.connectCallback state.url
           [("credentials", JsValue.credentials state.username state.password)]]
    ∧ dialogCloseAction = [DialogEffect.closeWindow]
    ∧ ∀ url options, DialogEffect.connectCallback url options ∉ dialogCloseAction := by
  refine ⟨rfl, rfl, ?_⟩
  intro url options hmem
  simp [dialogCloseAction] at hmem

theorem claim_C7_dialog_actions_witness :
    dialogConnect dialogInit
      = [DialogEffect.closeWindow,
         DialogEffect.connectCallback "ws://10.0.0.74:6080"
           [("credentials", JsValue.credentials "" "abc123")]] :=
  (claim_C7_dialog_actions dialogInit).1

/-- C8: the `vnc:update-session` handler assumes its url argument is already
tracked: it assigns to `sessions[url].capabilities` without a membership
check, so for every url not currently tracked the lookup yields no record and
the update fails as an undefined access rather than being ignored or creating
an entry. -/
theorem claim_C8_update_unchecked (st : AppState) (url : String)
    (capabilities : JsObj JsValue) (h : jsGet st.sessions url = none) :
    handleUpdateSession st url capabilities = none := by
  unfold handleUpdateSession
  rw [h]

theorem claim_C8_update_unchecked_witness :
    handleUpdateSession (initState none) "ws://h" [] = none :=
  claim_C8_update_unchecked (initState none) "ws://h" [] rfl

/-- C1: the session store is a mapping keyed by connection url: in every
reachable application state each tracked url maps to exactly one record of
window, connect options and capabilities; `vnc:create-session` inserts (or
overwrites) the entry for its url and `vnc:destroy-session` deletes it, in
both cases leaving every other url unchanged. -/
theorem claim_C1_session_store (a : Option (JsObj (JsObj JsValue)))
    (evs : List AppEvent) (st : AppState)
    (h : run (initState a) evs = some st) :
    keysNodup st.sessions
    ∧ (∀ url win options,
        jsGet (handleCreateSession st url win options).sessions url
            = some { win := win, options := options, capabilities := [] }
        ∧ ∀ u2, u2 ≠ url →
            jsGet (handleCreateSession st url win options).sessions u2
              = jsGet st.sessions u2)
    ∧ (∀ url,
        jsGet (handleDestroySession st url).sessions url = none
        ∧ ∀ u2, u2 ≠ url →
            jsGet (handleDestroySession st url).sessions u2
              = jsGet st.sessions u2) := by
  refine ⟨sessionsNodup_run h (sessionsNodup_initState a), ?_, ?_⟩
  · intro url win options
    refine ⟨jsGet_jsSet_self st.sessions url _, ?_⟩
    intro u2 hu2
    exact jsGet_jsSet_ne st.sessions url _ (fun hh => hu2 hh.symm)
  · intro url
    exact ⟨jsGet_jsDelete_self st.sessions url,
      fun u2 hu2 => jsGet_jsDelete_ne st.sessions url hu2⟩

theorem claim_C1_session_store_witness :
    jsGet (handleDestroySession (initState none) "ws://h").sessions "ws://h"
      = none :=
  ((claim_C1_session_store none [] (initState none) rfl).2.2 "ws://h").1

/-- C3: for every tracked session the tray context menu exposes a submenu
labelled with the session's url holding a Disconnect item followed by exactly
four power-control items (Ctrl+Alt+Del, shutdown, reboot, reset), each
disabled exactly when the session's `capabilities.power` is falsy; the
enclosing `Sessions` entry is disabled exactly when the session store is
empty. -/
theorem claim_C3_tray_menu (sessions : JsObj Session) :
    (∀ url s, (url, s) ∈ sessions →
      ({ label := url
         items :=
           [{ label := "Disconnect", disabled := false, emitTarget := s.win
              emitEvent := "vnc:disconnect" },
            { label := "Send Ctrl+Alt+Del"
              disabled := !(jsTruthyAt s.capabilities "power")
              emitTarget := s.win, emitEvent := "vnc:cad" },
            { label := "Send shutdown signal"
              disabled := !(jsTruthyAt s.capabilities "power")
              emitTarget := s.win, emitEvent := "vnc:shutdown" },
            { label := "Send reboot signal"
              disabled := !(jsTruthyAt s.capabilities "power")
              emitTarget := s.win, emitEvent := "vnc:reboot" },
            { label := "Send reset signal"
              disabled := !(jsTruthyAt s.capabilities "power")
              emitTarget := s.win, emitEvent := "vnc:reset" }] } : SessionSubmenu)
        ∈ getSessionMenu sessions)
    ∧ TrayEntry.submenus "Sessions" (decide (sessions = []))
        (getSessionMenu sessions) ∈ trayMenu sessions := by
  constructor
  · intro url s hmem
    exact List.mem_map_of_mem _ hmem
  · have hflag : (decide ((jsKeys sessions).length ≤ 0))
        = decide (sessions = []) := by
      cases sessions <;> simp [jsKeys]
    rw [← hflag]
    exact List.mem_cons_of_mem _ (List.mem_cons_self _ _)

theorem claim_C3_tray_menu_witness :
    ({ label := "ws://h",
       items :=
         [{ label := "Disconnect", disabled := false, emitTarget := 7
            emitEvent := "vnc:disconnect" },
          { label := "Send Ctrl+Alt+Del", disabled := false, emitTarget := 7
            emitEvent := "vnc:cad" },
          { label := "Send shutdown signal", disabled := false, emitTarget := 7
            emitEvent := "vnc:shutdown" },
          { label := "Send reboot signal", disabled := false, emitTarget := 7
            emitEvent := "vnc:reboot" },
          { label := "Send reset signal", disabled := false, emitTarget := 7
            emitEvent := "vnc:reset" }] } : SessionSubmenu)
      ∈ getSessionMenu
          [("ws://h", { win := 7, options := []
                        capabilities := [("power", JsValue.bool true)] })] :=
  (claim_C3_tray_menu _).1 "ws://h"
    { win := 7, options := [], capabilities := [("power", JsValue.bool true)] }
    (List.mem_singleton.mpr rfl)

theorem mem_jsSet_self {V : Type} (o : JsObj V) (k : String) (v : V) :
    (k, v) ∈ jsSet o k v := by
  unfold jsSet
  by_cases hc : o.any (fun p => decide (p.1 = k)) = true
  · rw [if_pos hc]
    obtain ⟨p, hp, hpk⟩ := List.any_eq_true.mp hc
    have hpk2 : p.1 = k := of_decide_eq_true hpk
    have himg : (if p.1 = k then (k, v) else p)
        ∈ List.map (fun q => if q.1 = k then (k, v) else q) o :=
      List.mem_map_of_mem (fun q => if q.1 = k then (k, v) else q) hp
    rw [if_pos hpk2] at himg
    exact himg
  · rw [if_neg hc]
    simp

/-- C9: immediately after a session is registered by `vnc:create-session` its
capabilities record is the empty object, so all four power-control items of
its submenu are disabled, until a later `capabilities` event delivers
capabilities through `vnc:update-session`. -/
theorem claim_C9_fresh_session_caps (st : AppState) (url : String) (win : Nat)
    (options : JsObj JsValue) :
    jsGet (handleCreateSession st url win options).sessions url
        = some { win := win, options := options, capabilities := [] }
    ∧ (∃ m ∈ getSessionMenu (handleCreateSession st url win options).sessions,
        m.label = url
        ∧ m.items.length = 5
        ∧ ∀ it ∈ m.items.drop 1, it.disabled = true)
    ∧ (∀ caps st2,
        handleUpdateSession (handleCreateSession st url win options) url caps
            = some st2
        → jsGet st2.sessions url
            = some { win := win, options := options, capabilities := caps }) := by
  refine ⟨jsGet_jsSet_self st.sessions url _, ?_, ?_⟩
  · have hmem : ({ label := url
                   items :=
                     [{ label := "Disconnect", disabled := false
                        emitTarget := win, emitEvent := "vnc:disconnect" },
                      { label := "Send Ctrl+Alt+Del", disabled := true
                        emitTarget := win, emitEvent := "vnc:cad" },
                      { label := "Send shutdown signal", disabled := true
                        emitTarget := win, emitEvent := "vnc:shutdown" },
                      { label := "Send reboot signal", disabled := true
                        emitTarget := win, emitEvent := "vnc:reboot" },
                      { label := "Send reset signal", disabled := true
                        emitTarget := win, emitEvent := "vnc:reset" }] } : SessionSubmenu)
        ∈ getSessionMenu (handleCreateSession st url win options).sessions :=
      List.mem_map_of_mem _ (mem_jsSet_self st.sessions url
        { win := win, options := options, capabilities := [] })
    refine ⟨_, hmem, rfl, rfl, ?_⟩
    intro it hit
    simp only [List.drop, List.mem_cons, List.not_mem_nil, or_false] at hit
    rcases hit with rfl | rfl | rfl | rfl <;> rfl
  · intro caps st2 hupd
    have hsess : (handleCreateSession st url win options).sessions
        = jsSet st.sessions url
            { win := win, options := options, capabilities := [] } := rfl
    simp only [handleUpdateSession, hsess, jsGet_jsSet_self] at hupd
    injection hupd with hupd
    subst hupd
    exact jsGet_jsSet_self _ url _

theorem claim_C9_fresh_session_caps_witness :
    jsGet ({ sessions :=
               [("ws://h", { win := 1, options := []
                             capabilities := [("power", JsValue.bool true)] })]
             argsSessions := some [("ws://h", [])] } : AppState).sessions "ws://h"
      = some { win := 1, options := []
               capabilities := [("power", JsValue.bool true)] } :=
  (claim_C9_fresh_session_caps (initState none) "ws://h" 1 []).2.2
    [("power", JsValue.bool true)]
    { sessions :=
        [("ws://h", { win := 1, options := []
                      capabilities := [("power", JsValue.bool true)] })]
      argsSessions := some [("ws://h", [])] }
    (by decide)

theorem mem_of_jsGet {V : Type} {o : JsObj V} {k : String} {v : V}
    (h : jsGet o k = some v) : (k, v) ∈ o := by
  induction o with
  | nil => exact Option.noConfusion h
  | cons p rest ih =>
    rcases p with ⟨a, w⟩
    rw [jsGet_cons] at h
    by_cases ha : a = k
    · rw [if_pos ha] at h
      injection h with h
      subst ha
      subst h
      exact List.mem_cons_self _ _
    · rw [if_neg ha] at h
      exact List.mem_cons_of_mem _ (ih h)

/-- C10: every RFB client is constructed with options defaulting `shared` to
true: for any caller-supplied options object without a `shared` key the
client receives `shared = true`, for any options object containing `shared`
the caller's value overrides the default, and all other caller-supplied
fields are passed through unchanged. -/
theorem claim_C10_shared_default (options : JsObj JsValue)
    (hnodup : keysNodup options) :
    ("shared" ∉ jsKeys options
        → jsGet (rfbOptions options) "shared" = some (JsValue.bool true))
    ∧ (∀ v, jsGet options "shared" = some v
        → jsGet (rfbOptions options) "shared" = some v)
    ∧ (∀ k ∈ jsKeys options, jsGet (rfbOptions options) k = jsGet options k) := by
  have hchar : ∀ k, jsGet (rfbOptions options) k
      = jsGet (objectAssign [("shared", JsValue.bool true)] options) k :=
    fun _ => rfl
  refine ⟨?_, ?_, ?_⟩
  · intro hmem
    rw [hchar "shared",
      jsGet_objectAssign hnodup [("shared", JsValue.bool true)] "shared",
      jsGet_eq_none_of_not_mem hmem]
    simp [jsGet_cons]
  · intro v hv
    rw [hchar "shared",
      jsGet_objectAssign hnodup [("shared", JsValue.bool true)] "shared", hv]
  · intro k hk
    rw [hchar k, jsGet_objectAssign hnodup [("shared", JsValue.bool true)] k]
    cases hg : jsGet options k with
    | none => exact absurd hk ((jsGet_eq_none_iff options k).mp hg)
    | some v => rfl

theorem claim_C10_shared_default_witness :
    jsGet (rfbOptions [("credentials", JsValue.credentials "u" "p")]) "shared"
        = some (JsValue.bool true)
    ∧ jsGet (rfbOptions [("shared", JsValue.bool false)]) "shared"
        = some (JsValue.bool false) :=
  ⟨(claim_C10_shared_default [("credentials", JsValue.credentials "u" "p")]
      (by simp [keysNodup, jsKeys])).1 (by simp [jsKeys]),
   (claim_C10_shared_default [("shared", JsValue.bool false)]
      (by simp [keysNodup, jsKeys])).2.1 (JsValue.bool false)
      (by simp [jsGet_cons])⟩

/-- Does this startup action create a VNC window for `url`? -/
def isCreateFor (url : String) : RegisterAction → Bool
  | .createVnc u _ => u == url
  | .openConnectionDialog => false

theorem countP_key_eq_one {saved : JsObj (JsObj JsValue)} {url : String}
    (hn : keysNodup saved) (h : url ∈ jsKeys saved) :
    List.countP (fun p => p.1 == url) saved = 1 := by
  induction saved with
  | nil => simp [jsKeys] at h
  | cons p rest ih =>
    obtain ⟨hp, hrest⟩ := keysNodup_cons.mp hn
    simp only [jsKeys, List.map_cons, List.mem_cons] at h
    rw [List.countP_cons]
    by_cases hu : p.1 = url
    · have h0 : List.countP (fun q => q.1 == url) rest = 0 := by
        rw [List.countP_eq_zero]
        intro a ha
        simp only [beq_iff_eq]
        intro hau
        have hmm : url ∈ jsKeys rest := hau ▸ List.mem_map_of_mem Prod.fst ha
        exact (hu ▸ hp) hmm
      simp [hu, h0]
    · rcases h with h | h
      · exact absurd h.symm hu
      · have hb : (p.1 == url) = false := by simp [hu]
        simp [hb, ih hrest h]

/-- C5: session persistence round-trips: after any create or destroy of a
session, `proc.args.sessions` equals the map sending each tracked url to that
session's connect options (window and capabilities are not persisted); and on
registration, a present `args.sessions` creates exactly one VNC window per
saved url using its saved options and opens no connection dialog, while
absent args open a connection dialog and create no VNC window. -/
theorem claim_C5_persistence_roundtrip (st : AppState)
    (h : keysNodup st.sessions) :
    (∀ url win options, ∃ m,
        (handleCreateSession st url win options).argsSessions = some m
        ∧ ∀ u, jsGet m u
            = (jsGet (handleCreateSession st url win options).sessions u).map
                Session.options)
    ∧ (∀ url, ∃ m,
        (handleDestroySession st url).argsSessions = some m
        ∧ ∀ u, jsGet m u
            = (jsGet (handleDestroySession st url).sessions u).map
                Session.options)
    ∧ (∀ saved : JsObj (JsObj JsValue), keysNodup saved →
        RegisterAction.openConnectionDialog ∉ registerStartup (some saved)
        ∧ ∀ url options, jsGet saved url = some options →
            List.countP (fun a => isCreateFor url a)
                (registerStartup (some saved)) = 1
            ∧ RegisterAction.createVnc url options ∈ registerStartup (some saved))
    ∧ registerStartup none = [RegisterAction.openConnectionDialog] := by
  refine ⟨?_, ?_, ?_, rfl⟩
  · intro url win options
    exact ⟨_, rfl,
      fun u => jsGet_updateApplicationSession (keysNodup_jsSet url _ h) u⟩
  · intro url
    exact ⟨_, rfl,
      fun u => jsGet_updateApplicationSession (keysNodup_jsDelete url h) u⟩
  · intro saved hsaved
    constructor
    · intro hmem
      simp only [registerStartup] at hmem
      obtain ⟨p, hp, hpe⟩ := List.mem_map.mp hmem
      exact RegisterAction.noConfusion hpe
    · intro url options hget
      constructor
      · simp only [registerStartup, List.countP_map]
        have hcomp : ((fun a => isCreateFor url a)
              ∘ (fun p : String × JsObj JsValue => RegisterAction.createVnc p.1 p.2))
            = fun p => p.1 == url := rfl
        rw [hcomp]
        exact countP_key_eq_one hsaved (mem_jsKeys_of_jsGet hget)
      · exact List.mem_map_of_mem _ (mem_of_jsGet hget)

theorem claim_C5_persistence_roundtrip_witness :
    registerStartup none = [RegisterAction.openConnectionDialog]
    ∧ RegisterAction.createVnc "ws://h" []
        ∈ registerStartup (some [("ws://h", [])]) :=
  ⟨(claim_C5_persistence_roundtrip (initState none) keysNodup_nil).2.2.2,
   (((claim_C5_persistence_roundtrip (initState none) keysNodup_nil).2.2.1
       [("ws://h", [])] (by simp [keysNodup, jsKeys])).2 "ws://h" []
       (by simp [jsGet_cons])).2⟩
